import Mathlib

/-!
Shallow embedding of `packages/cli/src/util/custom-input/select.ts`: a
single-select interactive list prompt.  The embedding models the data
model (`Choice`, `Separator`, `Bounds`, the prompt configuration), the
bounds computation, the initial active index resolution, and the
keypress-driven state machine (Enter / Up / Down / digit / backspace /
type-ahead search with its expiry timer), together with the one-time
help-tip logic of the render path.
-/

namespace Select

/-- The JS value of the `disabled?: boolean | string` field of a choice,
including absence of the field (`undefined`). -/
inductive DisabledField where
  | undef
  | bool (b : Bool)
  | str (s : String)
deriving DecidableEq, Repr

/-- JS truthiness of the `disabled` field (`!item.disabled` in the source
negates this): `undefined` and `false` and the empty string are falsy. -/
def DisabledField.truthy : DisabledField → Bool
  | .undef => false
  | .bool b => b
  | .str s => s != ""

/-- `Choice<Value>` from the source.  `name?` and `description?` are
optional; a `none` name models an absent field. -/
structure Choice (Value : Type) where
  value : Value
  name : Option String := none
  description : Option String := none
  disabled : DisabledField := .undef
deriving DecidableEq, Repr

/-- `Item<Value> = Separator | Choice<Value>`.  A separator carries its
display label (the `separator` string of the `Separator` object). -/
inductive Item (Value : Type) where
  | separator (label : String)
  | choice (c : Choice Value)
deriving DecidableEq, Repr

/-- `Separator.isSeparator(item)`. -/
def isSeparator {Value : Type} : Item Value → Bool
  | .separator _ => true
  | .choice _ => false

/-- `isSelectable` from the source:
`!Separator.isSeparator(item) && !item.disabled`. -/
def isSelectable {Value : Type} : Item Value → Bool
  | .separator _ => false
  | .choice c => !c.disabled.truthy

/-- The `value` field of an item; `none` for a separator (whose `value`
property is `undefined` in JS). -/
def itemValue? {Value : Type} : Item Value → Option Value
  | .separator _ => none
  | .choice c => some c.value

/-- JS `Array.prototype.findIndex`: index of the first element satisfying
`p`, scanning from the start; `none` models the JS result `-1`. -/
def findIndex? {α : Type} (p : α → Bool) : List α → Option Nat
  | [] => none
  | a :: l => if p a then some 0 else (findIndex? p l).map (· + 1)

/-- `{first, last}`: indices of the first and last selectable items. -/
structure Bounds where
  first : Nat
  last : Nat
deriving DecidableEq, Repr

/-- The single error kind of the prompt (`ValidationError` thrown at
construction). -/
inductive PromptError where
  | validationError (msg : String)
deriving DecidableEq, Repr

/-- The message of the error thrown when no choice is selectable. -/
def noSelectableMsg : String :=
  "[select prompt] No selectable choices. All choices are disabled."

/-- The `bounds` memo from the source: `first` is
`items.findIndex(isSelectable)`; `last` is
`items.length - 1 - [...items].reverse().findIndex(isSelectable)`.
When `first < 0` (no selectable item) the source throws a
`ValidationError`; the reverse scan succeeds exactly when the forward
scan does, so the second `error` arm is unreachable. -/
def bounds {Value : Type} (items : List (Item Value)) : Except PromptError Bounds :=
  match findIndex? isSelectable items with
  | none => .error (.validationError noSelectableMsg)
  | some first =>
    match findIndex? isSelectable items.reverse with
    | some revIdx => .ok { first := first, last := items.length - 1 - revIdx }
    | none => .error (.validationError noSelectableMsg)

/-- `SelectConfig<Value>` from the source (the theme is presentation
only and is not modelled).  `default? = none` models a config without a
`default` property (`'default' in config` is false). -/
structure SelectConfig (Value : Type) where
  message : String
  choices : List (Item Value)
  pageSize : Nat := 7
  loop : Bool := true
  default? : Option Value := none

/-- The `defaultItemIndex` memo: `-1` (here `none`) when the config has
no `default` property, otherwise
`items.findIndex(item => isSelectable(item) && item.value === config.default)`. -/
def defaultItemIndex {Value : Type} [DecidableEq Value]
    (default? : Option Value) (items : List (Item Value)) : Option Nat :=
  match default? with
  | none => none
  | some d =>
    findIndex? (fun item => isSelectable item && decide (itemValue? item = some d)) items

/-- The initial value of the `active` state:
`defaultItemIndex === -1 ? bounds.first : defaultItemIndex`. -/
def initialActive {Value : Type} [DecidableEq Value]
    (default? : Option Value) (items : List (Item Value)) (b : Bounds) : Nat :=
  match defaultItemIndex default? items with
  | none => b.first
  | some i => i

/-- One step of the Up/Down skip loop:
`(next + offset + items.length) % items.length`.  The operand is
non-negative for the offsets `±1` used by the source, so the JS `%`
agrees with the mathematical remainder `Int.emod` used here. -/
def step (len : Nat) (offset : Int) (idx : Nat) : Nat :=
  (((idx : Int) + offset + (len : Int)) % (len : Int)).toNat

/-- `t`-fold iteration of `step` (the position of the skip loop after
`t` iterations of its body). -/
def stepIter (len : Nat) (offset : Int) (idx : Nat) : Nat → Nat
  | 0 => idx
  | t + 1 => step len offset (stepIter len offset idx t)

/-- The index reached from `idx` after `t` cyclic moves of `offset`
modulo `len`: `(idx + t * offset) mod len`. -/
def cyc (len : Nat) (idx : Nat) (offset : Int) (t : Nat) : Nat :=
  (((idx : Int) + (t : Int) * offset) % (len : Int)).toNat

/-- The source's do-while skip loop
`do { next = (next + offset + items.length) % items.length } while (!isSelectable(items[next]))`,
modelled with explicit fuel.  The loop body always runs at least once;
the handler calls it with fuel `items.length`, which suffices whenever
some item is selectable (see the termination theorem below). -/
def findNextSelectable {Value : Type} (items : List (Item Value)) (offset : Int) :
    Nat → Nat → Option Nat
  | 0, _ => none
  | fuel + 1, idx =>
    let next := step items.length offset idx
    match items[next]? with
    | none => none
    | some item =>
      if isSelectable item then some next else findNextSelectable items offset fuel next

/-- `Status = 'pending' | 'done'`. -/
inductive Status where
  | pending
  | done
deriving DecidableEq, Repr

/-- A classified key event.  `other c` is any printable key that falls
through to the search branch; it carries the typed character, which the
readline has already appended to its input line when the handler runs. -/
inductive Key where
  | enter
  | up
  | down
  | digit (d : Nat)
  | backspace
  | other (c : Char)
deriving DecidableEq, Repr

/-- A scheduled `setTimeout` callback: its handle and its delay in
milliseconds. -/
structure PendingTimer where
  id : Nat
  delay : Nat
deriving DecidableEq, Repr

/-- The mutable state of one running prompt: the `status` and `active`
`useState` cells, the readline input line (the search buffer), the set
of scheduled timers with `searchTimeoutRef` pointing at the most
recently scheduled one, and the list of values passed to `done` so far. -/
structure PromptState (Value : Type) where
  status : Status
  active : Nat
  line : String
  timers : List PendingTimer
  timerCounter : Nat
  searchTimeoutRef : Option PendingTimer
  emitted : List (Option Value)
deriving DecidableEq, Repr

/-- `clearTimeout(searchTimeoutRef.current)`: cancels the referenced
timer if it is still pending; a no-op on `undefined` or an already
fired/cancelled handle (cancelling is idempotent). -/
def clearTimeoutRef {Value : Type} (st : PromptState Value) : PromptState Value :=
  { st with timers :=
      match st.searchTimeoutRef with
      | none => st.timers
      | some t => st.timers.filter (fun u => u.id != t.id) }

/-- The display label of a choice: `item.name || item.value` — the name
when it is a truthy (non-empty) string, else the stringified value. -/
def choiceLabel {Value : Type} (str : Value → String) (c : Choice Value) : String :=
  match c.name with
  | some n => if n == "" then str c.value else n
  | none => str c.value

/-- The display label of an item (separators display their label). -/
def displayLabel {Value : Type} (str : Value → String) : Item Value → String
  | .separator l => l
  | .choice c => choiceLabel str c

/-- JS `String.prototype.toLowerCase()`, modelled character-wise with
`Char.toLower` (the ASCII lower-casing both runtimes share on the
labels this model evaluates). -/
def toLowerCase (s : String) : String := String.mk (s.data.map Char.toLower)

/-- JS `String.prototype.startsWith(pre)`: `pre` is a prefix of `s`. -/
def strStartsWith (s pre : String) : Bool := pre.data.isPrefixOf s.data

/-- The predicate of the search branch's `findIndex` callback:
separators and non-selectable items never match; otherwise
`String(item.name || item.value).toLowerCase().startsWith(searchTerm)`. -/
def searchMatches {Value : Type} (str : Value → String) (searchTerm : String)
    (item : Item Value) : Bool :=
  if isSeparator item || !isSelectable item then false
  else
    match item with
    | .separator _ => false
    | .choice c => strStartsWith (toLowerCase (choiceLabel str c)) searchTerm

/-- The fixed delay of the search expiry timer (ms). -/
def searchTimeoutDelay : Nat := 700

/-- The Up/Down branch of the keypress handler: `rl.clearLine(0)`, then,
when `loop` is set or the move does not cross the relevant bound, run
the skip loop from `active` with offset `-1` (Up) or `1` (Down). -/
def arrowMove {Value : Type} (cfg : SelectConfig Value) (b : Bounds)
    (st : PromptState Value) (isUp : Bool) : PromptState Value :=
  let items := cfg.choices
  let st := { st with line := "" }
  if cfg.loop || (isUp && st.active != b.first) || (!isUp && st.active != b.last) then
    let offset : Int := if isUp then -1 else 1
    { st with active := (findNextSelectable items offset items.length st.active).getD st.active }
  else st

/-- The digit branch: `rl.clearLine(0)`; `position = Number(key.name) - 1`;
jump there when `items[position]` exists and is selectable
(`items[-1]` is `undefined`, hence the sign guard). -/
def digitMove {Value : Type} (cfg : SelectConfig Value) (st : PromptState Value)
    (d : Nat) : PromptState Value :=
  let st := { st with line := "" }
  let position : Int := (d : Int) - 1
  match (if 0 ≤ position then cfg.choices[position.toNat]? else none) with
  | some item => if isSelectable item then { st with active := position.toNat } else st
  | none => st

/-- The search (default) branch: the readline line — with the typed
character already appended — is lowercased and matched with `findIndex`
over `searchMatches`; on a match the active index moves there; a fresh
expiry timer is scheduled and stored in `searchTimeoutRef`. -/
def searchMove {Value : Type} (str : Value → String) (cfg : SelectConfig Value)
    (st : PromptState Value) (c : Char) : PromptState Value :=
  let line := st.line.push c
  let searchTerm := toLowerCase line
  let st := { st with line := line }
  let st :=
    match findIndex? (searchMatches str searchTerm) cfg.choices with
    | some matchIndex => { st with active := matchIndex }
    | none => st
  let t : PendingTimer := { id := st.timerCounter, delay := searchTimeoutDelay }
  { st with timers := st.timers ++ [t], searchTimeoutRef := some t,
            timerCounter := st.timerCounter + 1 }

/-- The `useKeypress` handler.  Every event first runs
`clearTimeout(searchTimeoutRef.current)`, then dispatches on the key.
On Enter the value of `items[active]` (cast to a `Choice` in the
source; `none` here would model the `undefined` read off a separator)
is appended to the emitted values and the status becomes done. -/
def handleKeypress {Value : Type} (str : Value → String) (cfg : SelectConfig Value)
    (b : Bounds) (st : PromptState Value) (k : Key) : PromptState Value :=
  let items := cfg.choices
  let st := clearTimeoutRef st
  match k with
  | .enter =>
    { st with status := .done, emitted := st.emitted ++ [(items[st.active]?).bind itemValue?] }
  | .up => arrowMove cfg b st true
  | .down => arrowMove cfg b st false
  | .digit d => digitMove cfg st d
  | .backspace => { st with line := "" }
  | .other c => searchMove str cfg st c

/-- Modelled from the spec: the generic prompt runtime (an external
collaborator, not part of this repository) stops delivering keypress
events once the prompt has resolved — "No transitions are accepted once
`Done`".  A key reaching a done prompt is therefore ignored. -/
def dispatch {Value : Type} (str : Value → String) (cfg : SelectConfig Value)
    (b : Bounds) (st : PromptState Value) (k : Key) : PromptState Value :=
  if st.status = .done then st else handleKeypress str cfg b st k

/-- Firing of the search expiry timer with handle `id`: if it is still
pending, its callback runs `rl.clearLine(0)` (clearing the search
buffer) and the timer is spent; otherwise nothing happens. -/
def fireSearchTimeout {Value : Type} (st : PromptState Value) (id : Nat) :
    PromptState Value :=
  if st.timers.any (fun t => t.id == id) then
    { st with line := "", timers := st.timers.filter (fun t => t.id != id) }
  else st

/-- An event of one prompt session: a delivered keypress or the firing
of a scheduled timeout. -/
inductive Event where
  | key (k : Key)
  | timeout (id : Nat)
deriving DecidableEq, Repr

/-- Apply one event to the prompt state. -/
def applyEvent {Value : Type} (str : Value → String) (cfg : SelectConfig Value)
    (b : Bounds) (st : PromptState Value) : Event → PromptState Value
  | .key k => dispatch str cfg b st k
  | .timeout id => fireSearchTimeout st id

/-- Run a sequence of events from a state. -/
def runEvents {Value : Type} (str : Value → String) (cfg : SelectConfig Value)
    (b : Bounds) (st : PromptState Value) : List Event → PromptState Value
  | [] => st
  | e :: es => runEvents str cfg b (applyEvent str cfg b st e) es

/-- The state of a freshly constructed prompt whose bounds computation
returned `b`: pending, active at the resolved initial index, empty
readline line, no timers, nothing emitted. -/
def initState {Value : Type} [DecidableEq Value] (cfg : SelectConfig Value)
    (b : Bounds) : PromptState Value :=
  { status := .pending
    active := initialActive cfg.default? cfg.choices b
    line := ""
    timers := []
    timerCounter := 0
    searchTimeoutRef := none
    emitted := [] }

/-- One render's help-tip decision:
`if (firstRender.current && items.length <= pageSize) { firstRender.current = false; helpTip = ... }`.
Returns whether the tip is shown and the updated `firstRender` flag. -/
def helpTipStep (itemsLen pageSize : Nat) (firstRender : Bool) : Bool × Bool :=
  if firstRender && decide (itemsLen ≤ pageSize) then (true, false) else (false, firstRender)

/-- The `firstRender` ref before the `n`-th render (`0`-indexed; it
starts `true`). -/
def firstRenderFlag (itemsLen pageSize : Nat) : Nat → Bool
  | 0 => true
  | n + 1 => (helpTipStep itemsLen pageSize (firstRenderFlag itemsLen pageSize n)).2

/-- Whether the help tip `"(Use arrow keys)"` is part of the `n`-th
render's header. -/
def helpTipShown (itemsLen pageSize : Nat) (n : Nat) : Bool :=
  (helpTipStep itemsLen pageSize (firstRenderFlag itemsLen pageSize n)).1

/-- The active index points at a selectable item of the list. -/
def ActiveInv {Value : Type} (items : List (Item Value)) (st : PromptState Value) : Prop :=
  ∃ item, items[st.active]? = some item ∧ isSelectable item = true

/-- At most one timer is pending; a pending timer is the 700 ms one the
ref points at; a done prompt has no pending timer. -/
def TimerInv {Value : Type} (st : PromptState Value) : Prop :=
  (st.timers = [] ∨
    ∃ t : PendingTimer, st.timers = [t] ∧ t.delay = 700 ∧ st.searchTimeoutRef = some t) ∧
  (st.status = .done → st.timers = [])

/-! ### Concrete configurations used by the witnesses -/

def itemA : Item String := .choice { value := "alpha", name := some "Alpha" }

def itemB : Item String := .choice { value := "bravo", name := some "Bravo", disabled := .bool true }

def itemC : Item String := .choice { value := "charlie", name := some "Charlie" }

def itemSep : Item String := .separator "---"

def exCfg : SelectConfig String := { message := "pick", choices := [itemA, itemB, itemC] }

def exCfgDefault : SelectConfig String :=
  { message := "pick", choices := [itemA, itemB, itemC], default? := some "charlie" }

def exCfgNoLoop : SelectConfig String :=
  { message := "pick", choices := [itemA, itemB, itemC], loop := false }

def exBounds : Bounds := { first := 0, last := 2 }

/-! ### Basic facts about `findIndex?` -/

theorem findIndex?_some_getElem {α : Type} {p : α → Bool} {l : List α} {i : Nat}
    (h : findIndex? p l = some i) : ∃ x, l[i]? = some x ∧ p x = true := by
  induction l generalizing i with
  | nil => simp [findIndex?] at h
  | cons a l ih =>
    by_cases hpa : p a = true
    · simp [findIndex?, hpa] at h
      exact ⟨a, by simp [← h], hpa⟩
    · simp [findIndex?, hpa] at h
      obtain ⟨j, hj, rfl⟩ := h
      obtain ⟨x, hx, hpx⟩ := ih hj
      exact ⟨x, by simpa using hx, hpx⟩

theorem findIndex?_some_least {α : Type} {p : α → Bool} {l : List α} {i : Nat}
    (h : findIndex? p l = some i) :
    ∀ (j : Nat) (x : α), j < i → l[j]? = some x → p x = false := by
  induction l generalizing i with
  | nil => simp [findIndex?] at h
  | cons a l ih =>
    intro j x hj hx
    by_cases hpa : p a = true
    · simp [findIndex?, hpa] at h
      omega
    · simp [findIndex?, hpa] at h
      obtain ⟨i', hi', rfl⟩ := h
      cases j with
      | zero =>
        simp at hx
        simpa [← hx] using hpa
      | succ j' => exact ih hi' j' x (by omega) (by simpa using hx)

theorem findIndex?_none {α : Type} {p : α → Bool} {l : List α}
    (h : findIndex? p l = none) :
    ∀ (j : Nat) (x : α), l[j]? = some x → p x = false := by
  induction l with
  | nil => intro j x hx; simp at hx
  | cons a l ih =>
    intro j x hx
    by_cases hpa : p a = true
    · simp [findIndex?, hpa] at h
    · simp [findIndex?, hpa] at h
      cases j with
      | zero =>
        simp at hx
        simpa [← hx] using hpa
      | succ j' => exact ih h j' x (by simpa using hx)

theorem findIndex?_isSome {α : Type} {p : α → Bool} {l : List α} {i : Nat} {x : α}
    (hx : l[i]? = some x) (hp : p x = true) : ∃ j, findIndex? p l = some j := by
  cases hfi : findIndex? p l with
  | some j => exact ⟨j, rfl⟩
  | none =>
    have := findIndex?_none hfi i x hx
    simp [hp] at this

theorem findIndex?_min {α : Type} {p : α → Bool} {l : List α} {i j : Nat} {x : α}
    (h : findIndex? p l = some i) (hx : l[j]? = some x) (hp : p x = true) : i ≤ j := by
  by_contra hlt
  push_neg at hlt
  have := findIndex?_some_least h j x hlt hx
  simp [hp] at this

/-! ### Facts about `bounds` -/

theorem bounds_eq {Value : Type} {items : List (Item Value)} {b : Bounds}
    (h : bounds items = .ok b) :
    ∃ first revIdx, findIndex? isSelectable items = some first ∧
      findIndex? isSelectable items.reverse = some revIdx ∧
      b = ⟨first, items.length - 1 - revIdx⟩ := by
  unfold bounds at h
  cases hf : findIndex? isSelectable items with
  | none => rw [hf] at h; simp at h
  | some first =>
    rw [hf] at h
    cases hr : findIndex? isSelectable items.reverse with
    | none => rw [hr] at h; simp at h
    | some revIdx =>
      rw [hr] at h
      simp at h
      exact ⟨first, revIdx, rfl, rfl, h.symm⟩

theorem bounds_ok_first {Value : Type} {items : List (Item Value)} {b : Bounds}
    (h : bounds items = .ok b) : findIndex? isSelectable items = some b.first := by
  obtain ⟨f, r, hf, _, rfl⟩ := bounds_eq h
  exact hf

theorem bounds_first_selectable {Value : Type} {items : List (Item Value)} {b : Bounds}
    (h : bounds items = .ok b) :
    ∃ x, items[b.first]? = some x ∧ isSelectable x = true :=
  findIndex?_some_getElem (bounds_ok_first h)

theorem bounds_last_selectable {Value : Type} {items : List (Item Value)} {b : Bounds}
    (h : bounds items = .ok b) :
    ∃ x, items[b.last]? = some x ∧ isSelectable x = true := by
  obtain ⟨f, revIdx, _, hr, rfl⟩ := bounds_eq h
  obtain ⟨x, hx, hsel⟩ := findIndex?_some_getElem hr
  refine ⟨x, ?_, hsel⟩
  have hlt : revIdx < items.length := by
    have := (List.getElem?_eq_some.mp hx).1
    simpa using this
  rw [← List.getElem?_reverse hlt]
  exact hx

theorem bounds_first_le_last {Value : Type} {items : List (Item Value)} {b : Bounds}
    (h : bounds items = .ok b) : b.first ≤ b.last := by
  obtain ⟨x, hx, hsel⟩ := bounds_last_selectable h
  exact findIndex?_min (bounds_ok_first h) hx hsel

theorem bounds_error_of_no_selectable {Value : Type} {items : List (Item Value)}
    (h : ∀ (i : Nat) (x : Item Value), items[i]? = some x → isSelectable x = false) :
    bounds items = .error (.validationError noSelectableMsg) := by
  unfold bounds
  cases hf : findIndex? isSelectable items with
  | none => rfl
  | some i =>
    obtain ⟨x, hx, hsel⟩ := findIndex?_some_getElem hf
    rw [h i x hx] at hsel
    cases hsel

theorem bounds_ok_of_selectable {Value : Type} {items : List (Item Value)}
    (h : ∃ (i : Nat) (x : Item Value), items[i]? = some x ∧ isSelectable x = true) :
    ∃ b, bounds items = .ok b := by
  obtain ⟨i, x, hx, hsel⟩ := h
  obtain ⟨f, hf⟩ := findIndex?_isSome hx hsel
  have hlen : i < items.length := (List.getElem?_eq_some.mp hx).1
  have hrev : items.reverse[items.length - 1 - i]? = items[i]? := by
    rw [List.getElem?_reverse (by omega : items.length - 1 - i < items.length)]
    congr 1
    omega
  obtain ⟨r, hr⟩ := findIndex?_isSome (hrev.trans hx) hsel
  refine ⟨⟨f, items.length - 1 - r⟩, ?_⟩
  unfold bounds
  rw [hf, hr]

theorem bounds_selectable_of_ok {Value : Type} {items : List (Item Value)} {b : Bounds}
    (h : bounds items = .ok b) :
    ∃ (i : Nat) (x : Item Value), items[i]? = some x ∧ isSelectable x = true := by
  obtain ⟨x, hx, hsel⟩ := bounds_first_selectable h
  exact ⟨b.first, x, hx, hsel⟩

/-! ### Arithmetic of the skip loop -/

theorem step_lt {len : Nat} (hlen : 0 < len) (offset : Int) (idx : Nat) :
    step len offset idx < len := by
  unfold step
  have h0 : (0 : Int) < (len : Int) := by exact_mod_cast hlen
  have hlt := Int.emod_lt_of_pos ((idx : Int) + offset + (len : Int)) h0
  have hnn := Int.emod_nonneg ((idx : Int) + offset + (len : Int))
    (by omega : (len : Int) ≠ 0)
  omega

theorem step_int {len : Nat} (hlen : 0 < len) (offset : Int) (idx : Nat) :
    (step len offset idx : Int) = ((idx : Int) + offset) % (len : Int) := by
  unfold step
  have hne : (len : Int) ≠ 0 := by
    have : (0 : Int) < (len : Int) := by exact_mod_cast hlen
    omega
  rw [Int.add_emod_self]
  exact Int.toNat_of_nonneg (Int.emod_nonneg _ hne)

theorem stepIter_succ_int {len : Nat} (hlen : 0 < len) (offset : Int) (idx : Nat) :
    ∀ t : Nat, (stepIter len offset idx (t + 1) : Int) =
      ((idx : Int) + ((t : Int) + 1) * offset) % (len : Int) := by
  intro t
  induction t with
  | zero =>
    show (step len offset (stepIter len offset idx 0) : Int) = _
    rw [step_int hlen]
    norm_num [stepIter]
  | succ t ih =>
    show (step len offset (stepIter len offset idx (t + 1)) : Int) = _
    rw [step_int hlen, ih, Int.emod_add_emod]
    congr 1
    push_cast
    ring

theorem stepIter_int {len : Nat} (hlen : 0 < len) (offset : Int) (idx : Nat)
    {t : Nat} (ht : 1 ≤ t) :
    (stepIter len offset idx t : Int) = ((idx : Int) + (t : Int) * offset) % (len : Int) := by
  obtain ⟨t', rfl⟩ : ∃ t', t = t' + 1 := ⟨t - 1, by omega⟩
  rw [stepIter_succ_int hlen]
  push_cast
  ring_nf

theorem stepIter_lt {len : Nat} (hlen : 0 < len) (offset : Int) (idx : Nat)
    {t : Nat} (ht : 1 ≤ t) : stepIter len offset idx t < len := by
  obtain ⟨t', rfl⟩ : ∃ t', t = t' + 1 := ⟨t - 1, by omega⟩
  show step len offset (stepIter len offset idx t') < len
  exact step_lt hlen offset _

theorem stepIter_shift {len : Nat} (offset : Int) (idx : Nat) (t : Nat) :
    stepIter len offset idx (t + 1) = stepIter len offset (step len offset idx) t := by
  induction t with
  | zero => rfl
  | succ t ih =>
    show step len offset (stepIter len offset idx (t + 1)) = _
    rw [ih]
    rfl

/-- Cyclic `±1` moves reach any target residue in at most `len` steps:
there is a step count `t ∈ [1, len]` with `(idx + t·offset) mod len = s`. -/
theorem cyc_reaches {len s idx : Nat} {offset : Int} (hlen : 0 < len) (hs : s < len)
    (hoff : offset = 1 ∨ offset = -1) :
    ∃ t : Nat, 1 ≤ t ∧ t ≤ len ∧
      ((idx : Int) + (t : Int) * offset) % (len : Int) = (s : Int) := by
  have hL : (0 : Int) < (len : Int) := by exact_mod_cast hlen
  have hLne : (len : Int) ≠ 0 := by omega
  have key : ∀ t : Nat, Int.ModEq (len : Int) (t : Int) (offset * ((s : Int) - (idx : Int))) →
      ((idx : Int) + (t : Int) * offset) % (len : Int) = (s : Int) := by
    intro t h1
    have h3 : Int.ModEq (len : Int) ((idx : Int) + (t : Int) * offset)
        ((idx : Int) + (offset * ((s : Int) - (idx : Int))) * offset) :=
      (h1.mul_right offset).add_left (idx : Int)
    have h4 : (idx : Int) + (offset * ((s : Int) - (idx : Int))) * offset = (s : Int) := by
      rcases hoff with rfl | rfl <;> ring
    rw [h4] at h3
    have h5 : ((idx : Int) + (t : Int) * offset) % (len : Int) = (s : Int) % (len : Int) := h3
    rw [h5]
    exact Int.emod_eq_of_lt (by omega) (by exact_mod_cast hs)
  have hmodnn : 0 ≤ (offset * ((s : Int) - (idx : Int))) % (len : Int) :=
    Int.emod_nonneg _ hLne
  have hmodlt : (offset * ((s : Int) - (idx : Int))) % (len : Int) < (len : Int) :=
    Int.emod_lt_of_pos _ hL
  by_cases h0 : (offset * ((s : Int) - (idx : Int))) % (len : Int) = 0
  · refine ⟨len, hlen, le_refl len, key len ?_⟩
    show (len : Int) % (len : Int) = (offset * ((s : Int) - (idx : Int))) % (len : Int)
    rw [Int.emod_self, h0]
  · set t0 : Nat := ((offset * ((s : Int) - (idx : Int))) % (len : Int)).toNat with ht0def
    have ht0 : (t0 : Int) = (offset * ((s : Int) - (idx : Int))) % (len : Int) :=
      Int.toNat_of_nonneg hmodnn
    refine ⟨t0, by omega, by omega, key t0 ?_⟩
    show (t0 : Int) % (len : Int) = (offset * ((s : Int) - (idx : Int))) % (len : Int)
    rw [ht0]
    exact Int.emod_emod_of_dvd _ dvd_rfl

/-! ### Facts about the skip loop `findNextSelectable` -/

theorem findNextSelectable_succ {Value : Type} (items : List (Item Value)) (offset : Int)
    (fuel idx : Nat) :
    findNextSelectable items offset (fuel + 1) idx =
      match items[step items.length offset idx]? with
      | none => none
      | some item =>
        if isSelectable item then some (step items.length offset idx)
        else findNextSelectable items offset fuel (step items.length offset idx) := rfl

theorem findNextSelectable_some_selectable {Value : Type} {items : List (Item Value)}
    {offset : Int} {fuel idx j : Nat}
    (h : findNextSelectable items offset fuel idx = some j) :
    ∃ x, items[j]? = some x ∧ isSelectable x = true := by
  induction fuel generalizing idx with
  | zero => simp [findNextSelectable] at h
  | succ fuel ih =>
    rw [findNextSelectable_succ] at h
    split at h
    · cases h
    · rename_i item hx
      split at h
      · rename_i hsel
        cases h
        exact ⟨item, hx, hsel⟩
      · exact ih h

theorem findNextSelectable_none {Value : Type} {items : List (Item Value)} {offset : Int}
    (hlen : 0 < items.length) {fuel idx : Nat}
    (h : findNextSelectable items offset fuel idx = none) :
    ∀ (t : Nat) (x : Item Value), 1 ≤ t → t ≤ fuel →
      items[stepIter items.length offset idx t]? = some x → isSelectable x = false := by
  induction fuel generalizing idx with
  | zero => intro t x h1 h2 _; omega
  | succ fuel ih =>
    intro t x h1 h2 hx
    rw [findNextSelectable_succ] at h
    split at h
    · rename_i hnone
      have hlt := step_lt hlen offset idx
      rw [List.getElem?_eq_none_iff] at hnone
      omega
    · rename_i item hx0
      split at h
      · cases h
      · rename_i hsel
        rcases Nat.lt_or_ge t 2 with h2' | h2'
        · have ht1 : t = 1 := by omega
          subst ht1
          have hst : stepIter items.length offset idx 1 = step items.length offset idx := rfl
          rw [hst, hx0] at hx
          cases hx
          simpa using hsel
        · obtain ⟨t', rfl⟩ : ∃ t', t = t' + 1 := ⟨t - 1, by omega⟩
          rw [stepIter_shift] at hx
          exact ih h t' x (by omega) (by omega) hx

theorem findNextSelectable_some_spec {Value : Type} {items : List (Item Value)}
    {offset : Int} {fuel idx j : Nat}
    (h : findNextSelectable items offset fuel idx = some j) :
    ∃ k, 1 ≤ k ∧ k ≤ fuel ∧ j = stepIter items.length offset idx k ∧
      ∀ (t : Nat) (x : Item Value), 1 ≤ t → t < k →
        items[stepIter items.length offset idx t]? = some x → isSelectable x = false := by
  induction fuel generalizing idx with
  | zero => simp [findNextSelectable] at h
  | succ fuel ih =>
    rw [findNextSelectable_succ] at h
    split at h
    · cases h
    · rename_i item hx0
      split at h
      · rename_i hsel
        cases h
        exact ⟨1, le_refl 1, by omega, rfl, by intro t x h1 h2 _; omega⟩
      · rename_i hsel
        obtain ⟨k, hk1, hk2, hkeq, hmin⟩ := ih h
        refine ⟨k + 1, by omega, by omega, ?_, ?_⟩
        · rw [stepIter_shift]
          exact hkeq
        · intro t x h1 h2 hx
          rcases Nat.lt_or_ge t 2 with h2' | h2'
          · have ht1 : t = 1 := by omega
            subst ht1
            have hst : stepIter items.length offset idx 1 = step items.length offset idx := rfl
            rw [hst, hx0] at hx
            cases hx
            simpa using hsel
          · obtain ⟨t', rfl⟩ : ∃ t', t = t' + 1 := ⟨t - 1, by omega⟩
            rw [stepIter_shift] at hx
            exact hmin t' x (by omega) (by omega) hx

/-- Termination of the skip loop: with at least one selectable item and
offset `±1`, fuel `items.length` always suffices. -/
theorem findNextSelectable_isSome {Value : Type} {items : List (Item Value)} {offset : Int}
    (hoff : offset = 1 ∨ offset = -1)
    (hsel : ∃ (i : Nat) (x : Item Value), items[i]? = some x ∧ isSelectable x = true)
    (idx : Nat) :
    ∃ j, findNextSelectable items offset items.length idx = some j := by
  obtain ⟨s, x, hx, hxsel⟩ := hsel
  have hs : s < items.length := (List.getElem?_eq_some.mp hx).1
  have hlen : 0 < items.length := by omega
  cases hres : findNextSelectable items offset items.length idx with
  | some j => exact ⟨j, rfl⟩
  | none =>
    exfalso
    obtain ⟨t, ht1, ht2, hteq⟩ := @cyc_reaches items.length s idx offset hlen hs hoff
    have hpos : stepIter items.length offset idx t = s := by
      have := stepIter_int hlen offset idx ht1
      rw [hteq] at this
      exact_mod_cast this
    have := findNextSelectable_none hlen hres t x ht1 ht2 (by rw [hpos]; exact hx)
    rw [hxsel] at this
    cases this

/-! ### Preservation of the active-index invariant -/

theorem searchMatches_selectable {Value : Type} {str : Value → String} {term : String}
    {item : Item Value} (h : searchMatches str term item = true) :
    isSelectable item = true := by
  unfold searchMatches at h
  by_cases hsel : isSelectable item = true
  · exact hsel
  · simp at hsel
    simp [hsel] at h

theorem arrowMove_activeInv {Value : Type} {cfg : SelectConfig Value} {b : Bounds}
    {st : PromptState Value} (isUp : Bool) (hinv : ActiveInv cfg.choices st) :
    ActiveInv cfg.choices (arrowMove cfg b st isUp) := by
  obtain ⟨item0, hit0, hsel0⟩ := hinv
  unfold arrowMove
  dsimp only
  split
  · cases hfn : findNextSelectable cfg.choices (if isUp then (-1 : Int) else 1)
      cfg.choices.length st.active with
    | some j =>
      obtain ⟨x, hx, hsel⟩ := findNextSelectable_some_selectable hfn
      exact ⟨x, by simp only [hfn, Option.getD_some]; exact hx, hsel⟩
    | none =>
      exact ⟨item0, by simp only [hfn, Option.getD_none]; exact hit0, hsel0⟩
  · exact ⟨item0, hit0, hsel0⟩

theorem digitMove_activeInv {Value : Type} {cfg : SelectConfig Value}
    {st : PromptState Value} (d : Nat) (hinv : ActiveInv cfg.choices st) :
    ActiveInv cfg.choices (digitMove cfg st d) := by
  obtain ⟨item0, hit0, hsel0⟩ := hinv
  unfold digitMove
  dsimp only
  split
  · rename_i item hitem
    split
    · rename_i hsel
      refine ⟨item, ?_, hsel⟩
      split at hitem
      · exact hitem
      · cases hitem
    · exact ⟨item0, hit0, hsel0⟩
  · exact ⟨item0, hit0, hsel0⟩

theorem searchMove_activeInv {Value : Type} {str : Value → String} {cfg : SelectConfig Value}
    {st : PromptState Value} (c : Char) (hinv : ActiveInv cfg.choices st) :
    ActiveInv cfg.choices (searchMove str cfg st c) := by
  obtain ⟨item0, hit0, hsel0⟩ := hinv
  unfold searchMove
  dsimp only
  split
  · rename_i matchIndex hmatch
    obtain ⟨x, hx, hpx⟩ := findIndex?_some_getElem hmatch
    exact ⟨x, hx, searchMatches_selectable hpx⟩
  · exact ⟨item0, hit0, hsel0⟩

theorem handleKeypress_activeInv {Value : Type} (str : Value → String)
    {cfg : SelectConfig Value} {b : Bounds} {st : PromptState Value} (k : Key)
    (hinv : ActiveInv cfg.choices st) :
    ActiveInv cfg.choices (handleKeypress str cfg b st k) := by
  have hinv' : ActiveInv cfg.choices (clearTimeoutRef st) := hinv
  cases k with
  | enter => exact hinv'
  | up => exact arrowMove_activeInv true hinv'
  | down => exact arrowMove_activeInv false hinv'
  | digit d => exact digitMove_activeInv d hinv'
  | backspace => exact hinv'
  | other c => exact searchMove_activeInv c hinv'

theorem dispatch_activeInv {Value : Type} (str : Value → String)
    {cfg : SelectConfig Value} {b : Bounds} {st : PromptState Value} (k : Key)
    (hinv : ActiveInv cfg.choices st) :
    ActiveInv cfg.choices (dispatch str cfg b st k) := by
  unfold dispatch
  split
  · exact hinv
  · exact handleKeypress_activeInv str k hinv

theorem applyEvent_activeInv {Value : Type} (str : Value → String)
    {cfg : SelectConfig Value} {b : Bounds} {st : PromptState Value} (e : Event)
    (hinv : ActiveInv cfg.choices st) :
    ActiveInv cfg.choices (applyEvent str cfg b st e) := by
  cases e with
  | key k => exact dispatch_activeInv str k hinv
  | timeout id =>
    obtain ⟨x, hx, hs⟩ := hinv
    show ActiveInv cfg.choices (fireSearchTimeout st id)
    unfold fireSearchTimeout
    split
    · exact ⟨x, hx, hs⟩
    · exact ⟨x, hx, hs⟩

theorem runEvents_activeInv {Value : Type} (str : Value → String)
    {cfg : SelectConfig Value} {b : Bounds} {st : PromptState Value}
    (hinv : ActiveInv cfg.choices st) (evs : List Event) :
    ActiveInv cfg.choices (runEvents str cfg b st evs) := by
  induction evs generalizing st with
  | nil => exact hinv
  | cons e es ih => exact ih (applyEvent_activeInv str e hinv)

theorem initState_activeInv {Value : Type} [DecidableEq Value] {cfg : SelectConfig Value}
    {b : Bounds} (hb : bounds cfg.choices = .ok b) :
    ActiveInv cfg.choices (initState cfg b) := by
  unfold ActiveInv initState initialActive
  dsimp only
  cases hdi : defaultItemIndex cfg.default? cfg.choices with
  | none => exact bounds_first_selectable hb
  | some i =>
    unfold defaultItemIndex at hdi
    cases hd : cfg.default? with
    | none => rw [hd] at hdi; cases hdi
    | some d =>
      rw [hd] at hdi
      obtain ⟨x, hx, hpx⟩ := findIndex?_some_getElem hdi
      refine ⟨x, hx, ?_⟩
      simp at hpx
      exact hpx.1

/-! ### Shape of the state after each handler branch -/

theorem arrowMove_eq {Value : Type} (cfg : SelectConfig Value) (b : Bounds)
    (st : PromptState Value) (isUp : Bool) :
    ∃ a, arrowMove cfg b st isUp = { st with line := "", active := a } := by
  unfold arrowMove
  dsimp only
  split
  · exact ⟨_, rfl⟩
  · exact ⟨st.active, rfl⟩

theorem digitMove_eq {Value : Type} (cfg : SelectConfig Value)
    (st : PromptState Value) (d : Nat) :
    ∃ a, digitMove cfg st d = { st with line := "", active := a } := by
  unfold digitMove
  dsimp only
  split
  · split
    · exact ⟨_, rfl⟩
    · exact ⟨st.active, rfl⟩
  · exact ⟨st.active, rfl⟩

theorem searchMove_eq {Value : Type} (str : Value → String) (cfg : SelectConfig Value)
    (st : PromptState Value) (c : Char) :
    ∃ a, searchMove str cfg st c =
      { st with line := st.line.push c, active := a,
                timers := st.timers ++ [{ id := st.timerCounter, delay := 700 }],
                searchTimeoutRef := some { id := st.timerCounter, delay := 700 },
                timerCounter := st.timerCounter + 1 } := by
  unfold searchMove
  dsimp only
  split
  · exact ⟨_, rfl⟩
  · exact ⟨st.active, rfl⟩

/-! ### The timer discipline -/

theorem clearTimeoutRef_timers_nil {Value : Type} {st : PromptState Value}
    (h : st.timers = [] ∨
      ∃ t : PendingTimer, st.timers = [t] ∧ t.delay = 700 ∧ st.searchTimeoutRef = some t) :
    (clearTimeoutRef st).timers = [] := by
  unfold clearTimeoutRef
  dsimp only
  rcases h with h | ⟨t, ht, hd, href⟩
  · rw [h]
    cases st.searchTimeoutRef <;> simp
  · rw [href, ht]
    simp

theorem handleKeypress_timers {Value : Type} (str : Value → String)
    (cfg : SelectConfig Value) (b : Bounds) {st : PromptState Value} (k : Key)
    (h : (clearTimeoutRef st).timers = []) :
    (handleKeypress str cfg b st k).timers =
      match k with
      | .other _ => [{ id := st.timerCounter, delay := 700 }]
      | _ => [] := by
  cases k with
  | enter => exact h
  | up =>
    obtain ⟨a, ha⟩ := arrowMove_eq cfg b (clearTimeoutRef st) true
    show (arrowMove cfg b (clearTimeoutRef st) true).timers = []
    rw [ha]
    exact h
  | down =>
    obtain ⟨a, ha⟩ := arrowMove_eq cfg b (clearTimeoutRef st) false
    show (arrowMove cfg b (clearTimeoutRef st) false).timers = []
    rw [ha]
    exact h
  | digit d =>
    obtain ⟨a, ha⟩ := digitMove_eq cfg (clearTimeoutRef st) d
    show (digitMove cfg (clearTimeoutRef st) d).timers = []
    rw [ha]
    exact h
  | backspace => exact h
  | other c =>
    obtain ⟨a, ha⟩ := searchMove_eq str cfg (clearTimeoutRef st) c
    show (searchMove str cfg (clearTimeoutRef st) c).timers = _
    rw [ha]
    show (clearTimeoutRef st).timers ++ [_] = _
    rw [h]
    rfl

theorem handleKeypress_ref {Value : Type} (str : Value → String)
    (cfg : SelectConfig Value) (b : Bounds) (st : PromptState Value) (c : Char) :
    (handleKeypress str cfg b st (.other c)).searchTimeoutRef =
      some { id := st.timerCounter, delay := 700 } := by
  obtain ⟨a, ha⟩ := searchMove_eq str cfg (clearTimeoutRef st) c
  show (searchMove str cfg (clearTimeoutRef st) c).searchTimeoutRef = _
  rw [ha]
  rfl

theorem handleKeypress_status {Value : Type} (str : Value → String)
    (cfg : SelectConfig Value) (b : Bounds) (st : PromptState Value) (k : Key) :
    (handleKeypress str cfg b st k).status =
      match k with
      | .enter => Status.done
      | _ => st.status := by
  cases k with
  | enter => rfl
  | up =>
    obtain ⟨a, ha⟩ := arrowMove_eq cfg b (clearTimeoutRef st) true
    show (arrowMove cfg b (clearTimeoutRef st) true).status = _
    rw [ha]
    rfl
  | down =>
    obtain ⟨a, ha⟩ := arrowMove_eq cfg b (clearTimeoutRef st) false
    show (arrowMove cfg b (clearTimeoutRef st) false).status = _
    rw [ha]
    rfl
  | digit d =>
    obtain ⟨a, ha⟩ := digitMove_eq cfg (clearTimeoutRef st) d
    show (digitMove cfg (clearTimeoutRef st) d).status = _
    rw [ha]
    rfl
  | backspace => rfl
  | other c =>
    obtain ⟨a, ha⟩ := searchMove_eq str cfg (clearTimeoutRef st) c
    show (searchMove str cfg (clearTimeoutRef st) c).status = _
    rw [ha]
    rfl

theorem dispatch_timerInv {Value : Type} (str : Value → String)
    (cfg : SelectConfig Value) (b : Bounds) {st : PromptState Value} (k : Key)
    (h : TimerInv st) : TimerInv (dispatch str cfg b st k) := by
  unfold dispatch
  split
  · exact h
  · rename_i hpend
    have hclr := clearTimeoutRef_timers_nil h.1
    have htm := handleKeypress_timers str cfg b k hclr
    have hss := handleKeypress_status str cfg b st k
    cases k with
    | other c =>
      refine ⟨.inr ⟨{ id := st.timerCounter, delay := 700 }, htm, rfl,
        handleKeypress_ref str cfg b st c⟩, ?_⟩
      intro hd
      rw [hss] at hd
      exact absurd hd hpend
    | enter => exact ⟨.inl htm, fun _ => htm⟩
    | up => exact ⟨.inl htm, fun _ => htm⟩
    | down => exact ⟨.inl htm, fun _ => htm⟩
    | digit d => exact ⟨.inl htm, fun _ => htm⟩
    | backspace => exact ⟨.inl htm, fun _ => htm⟩

theorem fireSearchTimeout_timerInv {Value : Type} {st : PromptState Value} (id : Nat)
    (h : TimerInv st) : TimerInv (fireSearchTimeout st id) := by
  unfold fireSearchTimeout
  split
  · rename_i hany
    have hnil : st.timers.filter (fun t => t.id != id) = [] := by
      rcases h.1 with hn | ⟨t, ht, hd, href⟩
      · rw [hn]; rfl
      · rw [ht] at hany ⊢
        simp at hany
        simp [hany]
    exact ⟨.inl hnil, fun _ => hnil⟩
  · exact h

theorem applyEvent_timerInv {Value : Type} (str : Value → String)
    (cfg : SelectConfig Value) (b : Bounds) {st : PromptState Value} (e : Event)
    (h : TimerInv st) : TimerInv (applyEvent str cfg b st e) := by
  cases e with
  | key k => exact dispatch_timerInv str cfg b k h
  | timeout id => exact fireSearchTimeout_timerInv id h

theorem runEvents_timerInv {Value : Type} (str : Value → String)
    (cfg : SelectConfig Value) (b : Bounds) {st : PromptState Value}
    (h : TimerInv st) (evs : List Event) : TimerInv (runEvents str cfg b st evs) := by
  induction evs generalizing st with
  | nil => exact h
  | cons e es ih => exact ih (applyEvent_timerInv str cfg b e h)

theorem initState_timerInv {Value : Type} [DecidableEq Value] (cfg : SelectConfig Value)
    (b : Bounds) : TimerInv (initState cfg b : PromptState Value) :=
  ⟨.inl rfl, fun _ => rfl⟩

/-! ### Further helper lemmas for the claim theorems -/

theorem stepIter_eq_cyc {len : Nat} (hlen : 0 < len) (offset : Int) (idx : Nat)
    {t : Nat} (ht : 1 ≤ t) : stepIter len offset idx t = cyc len idx offset t := by
  have h := stepIter_int hlen offset idx ht
  unfold cyc
  omega

theorem digitMove_active {Value : Type} (cfg : SelectConfig Value)
    (st : PromptState Value) (d : Nat) :
    (digitMove cfg st d).active =
      match (if 0 ≤ (d : Int) - 1 then cfg.choices[((d : Int) - 1).toNat]? else none) with
      | some item => if isSelectable item then ((d : Int) - 1).toNat else st.active
      | none => st.active := by
  unfold digitMove
  dsimp only
  split
  · split <;> rfl
  · rfl

theorem searchMove_active {Value : Type} (str : Value → String) (cfg : SelectConfig Value)
    (st : PromptState Value) (c : Char) :
    (searchMove str cfg st c).active =
      match findIndex? (searchMatches str (toLowerCase (st.line.push c))) cfg.choices with
      | some i => i
      | none => st.active := by
  unfold searchMove
  dsimp only
  split
  · rfl
  · rfl

theorem searchMatches_iff {Value : Type} (str : Value → String) (term : String)
    (x : Item Value) :
    searchMatches str term x = true ↔
      (isSelectable x = true ∧ strStartsWith (toLowerCase (displayLabel str x)) term = true) := by
  cases x with
  | separator l => simp [searchMatches, isSeparator, isSelectable]
  | choice ch =>
    by_cases hsel : isSelectable (Item.choice ch) = true
    · simp [searchMatches, isSeparator, hsel, displayLabel]
    · simp at hsel
      simp [searchMatches, isSeparator, hsel, displayLabel]

theorem firstRenderFlag_false {len ps : Nat} (h : len ≤ ps) (n : Nat) :
    firstRenderFlag len ps (n + 1) = false := by
  induction n with
  | zero => simp [firstRenderFlag, helpTipStep, h]
  | succ n ih =>
    show (helpTipStep len ps (firstRenderFlag len ps (n + 1))).2 = false
    rw [ih]
    simp [helpTipStep]

theorem fireSearchTimeout_fields {Value : Type} (st : PromptState Value) (id : Nat) :
    (fireSearchTimeout st id).active = st.active ∧
    (fireSearchTimeout st id).status = st.status ∧
    (fireSearchTimeout st id).emitted = st.emitted ∧
    (st.timers.any (fun t => t.id == id) = true → (fireSearchTimeout st id).line = "") ∧
    (st.timers.any (fun t => t.id == id) = false → fireSearchTimeout st id = st) := by
  unfold fireSearchTimeout
  by_cases h : st.timers.any (fun t => t.id == id) = true
  · rw [if_pos h]
    exact ⟨rfl, rfl, rfl, fun _ => rfl, fun hf => by rw [hf] at h; cases h⟩
  · rw [if_neg h]
    exact ⟨rfl, rfl, rfl, fun hf => absurd hf h, fun _ => rfl⟩

theorem arrowMove_spec {Value : Type} {cfg : SelectConfig Value} {b : Bounds}
    (hb : bounds cfg.choices = .ok b) (st : PromptState Value) (isUp : Bool) :
    ((cfg.loop || (isUp && st.active != b.first) || (!isUp && st.active != b.last)) = true →
      ∃ k, 1 ≤ k ∧ k ≤ cfg.choices.length ∧
        (arrowMove cfg b st isUp).active =
          cyc cfg.choices.length st.active (if isUp then -1 else 1) k ∧
        (∃ x, cfg.choices[(arrowMove cfg b st isUp).active]? = some x ∧
          isSelectable x = true) ∧
        (∀ (t : Nat) (x : Item Value), 1 ≤ t → t < k →
          cfg.choices[cyc cfg.choices.length st.active (if isUp then -1 else 1) t]? = some x →
          isSelectable x = false)) ∧
    ((cfg.loop || (isUp && st.active != b.first) || (!isUp && st.active != b.last)) = false →
      (arrowMove cfg b st isUp).active = st.active) := by
  have hsel := bounds_selectable_of_ok hb
  have hlen : 0 < cfg.choices.length := by
    obtain ⟨i, x, hx, _⟩ := hsel
    have := (List.getElem?_eq_some.mp hx).1
    omega
  have hoff : (if isUp then (-1 : Int) else 1) = 1 ∨ (if isUp then (-1 : Int) else 1) = -1 := by
    cases isUp
    · exact Or.inl rfl
    · exact Or.inr rfl
  constructor
  · intro hg
    obtain ⟨j, hj⟩ := findNextSelectable_isSome hoff hsel st.active
    have hred : arrowMove cfg b st isUp = { st with line := "", active := j } := by
      unfold arrowMove
      dsimp only
      rw [if_pos hg, hj]
      rfl
    rw [hred]
    obtain ⟨k, hk1, hk2, hkeq, hmin⟩ := findNextSelectable_some_spec hj
    refine ⟨k, hk1, hk2, ?_, ?_, ?_⟩
    · show j = _
      rw [hkeq]
      exact stepIter_eq_cyc hlen _ _ hk1
    · exact findNextSelectable_some_selectable hj
    · intro t x ht1 ht2 hx
      refine hmin t x ht1 ht2 ?_
      rw [stepIter_eq_cyc hlen _ _ ht1]
      exact hx
  · intro hg
    have hred : arrowMove cfg b st isUp = { st with line := "" } := by
      unfold arrowMove
      dsimp only
      rw [if_neg (by rw [hg]; intro hcon; cases hcon)]
    rw [hred]

/-! ### Claim theorems -/

/-- C1: a configuration whose choice list has at least one selectable
item gets a successful bounds computation with `first ≤ last`, both
indices referring to selectable items; a configuration with zero
selectable items (empty, or all disabled/separators) fails prompt
construction with the single `ValidationError` kind. -/
theorem bounds_spec {Value : Type} (items : List (Item Value)) :
    ((∃ (i : Nat) (x : Item Value), items[i]? = some x ∧ isSelectable x = true) →
      ∃ b, bounds items = .ok b ∧ b.first ≤ b.last ∧
        (∃ x, items[b.first]? = some x ∧ isSelectable x = true) ∧
        (∃ x, items[b.last]? = some x ∧ isSelectable x = true)) ∧
    ((∀ (i : Nat) (x : Item Value), items[i]? = some x → isSelectable x = false) →
      bounds items = .error (.validationError noSelectableMsg)) := by
  constructor
  · intro h
    obtain ⟨b, hb⟩ := bounds_ok_of_selectable h
    exact ⟨b, hb, bounds_first_le_last hb, bounds_first_selectable hb,
      bounds_last_selectable hb⟩
  · exact bounds_error_of_no_selectable

/-- Witness for C1 at concrete inputs: `[sep, A, B(disabled)]` has
selectable bounds; `[sep, B(disabled)]` fails construction. -/
theorem bounds_spec_witness :
    (∃ b, bounds [itemSep, itemA, itemB] = .ok b ∧ b.first ≤ b.last ∧
      (∃ x, [itemSep, itemA, itemB][b.first]? = some x ∧ isSelectable x = true) ∧
      (∃ x, [itemSep, itemA, itemB][b.last]? = some x ∧ isSelectable x = true)) ∧
    bounds [itemSep, itemB] = .error (.validationError noSelectableMsg) := by
  constructor
  · exact (bounds_spec [itemSep, itemA, itemB]).1 ⟨1, itemA, rfl, rfl⟩
  · refine (bounds_spec [itemSep, itemB]).2 ?_
    intro i x hx
    match i with
    | 0 => cases hx; rfl
    | 1 => cases hx; rfl
    | n + 2 => simp at hx

/-- C9: the help hint `"(Use arrow keys)"` is in the rendered header
exactly when the render is the very first one and the item count is at
most the page size; on any later render, or when the count exceeds the
page size, it is absent. -/
theorem helpTip_spec (itemsLen pageSize n : Nat) :
    helpTipShown itemsLen pageSize n = (decide (n = 0) && decide (itemsLen ≤ pageSize)) := by
  cases n with
  | zero =>
    by_cases h : itemsLen ≤ pageSize
    · simp [helpTipShown, firstRenderFlag, helpTipStep, h]
    · simp [helpTipShown, firstRenderFlag, helpTipStep, h]
  | succ n =>
    by_cases h : itemsLen ≤ pageSize
    · simp [helpTipShown, helpTipStep, firstRenderFlag_false h]
    · simp [helpTipShown, helpTipStep, h]

/-- C10: on any item list with at least one selectable item, from any
starting index and in either direction, the Up/Down skip loop finds a
selectable item within `items.length` iterations (the fuel the handler
model uses). -/
theorem skip_loop_terminates {Value : Type} (items : List (Item Value)) (offset : Int)
    (hoff : offset = 1 ∨ offset = -1)
    (hsel : ∃ (i : Nat) (x : Item Value), items[i]? = some x ∧ isSelectable x = true)
    (idx : Nat) :
    ∃ j, findNextSelectable items offset items.length idx = some j :=
  findNextSelectable_isSome hoff hsel idx

/-- Witness for C10: downward from A over `[A, B(disabled), C]`. -/
theorem skip_loop_terminates_witness :
    ∃ j, findNextSelectable [itemA, itemB, itemC] 1 [itemA, itemB, itemC].length 0 = some j :=
  skip_loop_terminates [itemA, itemB, itemC] 1 (Or.inl rfl) ⟨0, itemA, rfl, rfl⟩ 0

/-- C7: if `Config.default` is set and equals the value of some
selectable choice, the initial active index is the (first) such
choice's index; otherwise — default absent, or matching no selectable
choice — it is `Bounds.first`. -/
theorem initial_active_spec {Value : Type} [DecidableEq Value]
    (cfg : SelectConfig Value) (b : Bounds) (hb : bounds cfg.choices = .ok b) :
    (∀ d : Value, cfg.default? = some d →
      ((∃ (i : Nat) (x : Item Value), cfg.choices[i]? = some x ∧ isSelectable x = true ∧
          itemValue? x = some d) →
        (∃ x, cfg.choices[initialActive cfg.default? cfg.choices b]? = some x ∧
          isSelectable x = true ∧ itemValue? x = some d) ∧
        (∀ (j : Nat) (x : Item Value), j < initialActive cfg.default? cfg.choices b →
          cfg.choices[j]? = some x → ¬(isSelectable x = true ∧ itemValue? x = some d))) ∧
      ((∀ (i : Nat) (x : Item Value), cfg.choices[i]? = some x →
          ¬(isSelectable x = true ∧ itemValue? x = some d)) →
        initialActive cfg.default? cfg.choices b = b.first)) ∧
    (cfg.default? = none → initialActive cfg.default? cfg.choices b = b.first) := by
  constructor
  · intro d hd
    constructor
    · rintro ⟨i, x, hx, hsel, hval⟩
      have hp : (fun item => isSelectable item && decide (itemValue? item = some d)) x = true := by
        simp [hsel, hval]
      obtain ⟨j, hj⟩ := @findIndex?_isSome (Item Value)
        (fun item => isSelectable item && decide (itemValue? item = some d))
        cfg.choices i x hx hp
      have hact : initialActive cfg.default? cfg.choices b = j := by
        show (match defaultItemIndex cfg.default? cfg.choices with
          | none => b.first
          | some i => i) = j
        unfold defaultItemIndex
        rw [hd]
        show (match findIndex?
            (fun item => isSelectable item && decide (itemValue? item = some d)) cfg.choices with
          | none => b.first
          | some i => i) = j
        rw [hj]
      rw [hact]
      obtain ⟨y, hy, hpy⟩ := findIndex?_some_getElem hj
      simp at hpy
      refine ⟨⟨y, hy, hpy.1, hpy.2⟩, ?_⟩
      rintro j' x' hj' hx' ⟨hsel', hval'⟩
      have := findIndex?_some_least hj j' x' hj' hx'
      simp [hsel', hval'] at this
    · intro hno
      have hred : initialActive cfg.default? cfg.choices b =
          match findIndex?
            (fun item => isSelectable item && decide (itemValue? item = some d)) cfg.choices with
          | none => b.first
          | some i => i := by
        show (match defaultItemIndex cfg.default? cfg.choices with
          | none => b.first
          | some i => i) = _
        unfold defaultItemIndex
        rw [hd]
      rw [hred]
      cases hfi : findIndex?
          (fun item => isSelectable item && decide (itemValue? item = some d)) cfg.choices with
      | none => rfl
      | some i =>
        obtain ⟨x, hx, hpx⟩ := findIndex?_some_getElem hfi
        simp at hpx
        exact absurd ⟨hpx.1, hpx.2⟩ (hno i x hx)
  · intro hd
    show (match defaultItemIndex cfg.default? cfg.choices with
      | none => b.first
      | some i => i) = b.first
    unfold defaultItemIndex
    rw [hd]

/-- Witness for C7: with default `"charlie"` over `[A, B(disabled), C]`
the initial active index carries a selectable choice with value
`"charlie"` and no earlier index does (C's index, not `Bounds.first`). -/
theorem initial_active_spec_witness :
    (∃ x, exCfgDefault.choices[initialActive exCfgDefault.default? exCfgDefault.choices exBounds]? =
        some x ∧ isSelectable x = true ∧ itemValue? x = some "charlie") ∧
    (∀ (j : Nat) (x : Item String),
      j < initialActive exCfgDefault.default? exCfgDefault.choices exBounds →
      exCfgDefault.choices[j]? = some x →
      ¬(isSelectable x = true ∧ itemValue? x = some "charlie")) :=
  ((initial_active_spec exCfgDefault exBounds rfl).1 "charlie" rfl).1
    ⟨2, itemC, rfl, rfl, rfl⟩

/-- C6: on a digit key `d` while pending, with `target = d − 1`: if the
target indexes a selectable item the active index becomes `target`;
otherwise (out of range, separator or disabled there) the event leaves
the active index unchanged; it never errors and never emits. -/
theorem digit_key_spec {Value : Type} (str : Value → String) (cfg : SelectConfig Value)
    (b : Bounds) (st : PromptState Value) (hst : st.status = .pending) (d : Nat) :
    (∀ x : Item Value, 1 ≤ d → cfg.choices[d - 1]? = some x → isSelectable x = true →
      (dispatch str cfg b st (.digit d)).active = d - 1) ∧
    ((d = 0 ∨ cfg.choices.length < d ∨
        (∀ x : Item Value, cfg.choices[d - 1]? = some x → isSelectable x = false)) →
      (dispatch str cfg b st (.digit d)).active = st.active) ∧
    (dispatch str cfg b st (.digit d)).status = st.status ∧
    (dispatch str cfg b st (.digit d)).emitted = st.emitted := by
  have hdisp : dispatch str cfg b st (.digit d) = digitMove cfg (clearTimeoutRef st) d := by
    unfold dispatch
    rw [if_neg (by simp [hst])]
    rfl
  obtain ⟨a, ha⟩ := digitMove_eq cfg (clearTimeoutRef st) d
  refine ⟨?_, ?_, ?_, ?_⟩
  · intro x hd1 hx hsel
    rw [hdisp, digitMove_active]
    have htn : ((d : Int) - 1).toNat = d - 1 := by omega
    rw [if_pos (by omega : (0 : Int) ≤ (d : Int) - 1), htn]
    show (match cfg.choices[d - 1]? with
      | some item => if isSelectable item then d - 1 else st.active
      | none => st.active) = d - 1
    rw [hx]
    simp [hsel]
  · intro h
    rw [hdisp, digitMove_active]
    rcases h with hd0 | hlt | hall
    · rw [if_neg (show ¬(0 : Int) ≤ (d : Int) - 1 by omega)]
      rfl
    · have htn : ((d : Int) - 1).toNat = d - 1 := by omega
      have hnone : cfg.choices[d - 1]? = none := by
        rw [List.getElem?_eq_none_iff]
        omega
      by_cases hd0 : 1 ≤ d
      · rw [if_pos (show (0 : Int) ≤ (d : Int) - 1 by omega), htn]
        show (match cfg.choices[d - 1]? with
          | some item => if isSelectable item then d - 1 else st.active
          | none => st.active) = st.active
        rw [hnone]
      · rw [if_neg (show ¬(0 : Int) ≤ (d : Int) - 1 by omega)]
        rfl
    · by_cases hd0 : 1 ≤ d
      · have htn : ((d : Int) - 1).toNat = d - 1 := by omega
        rw [if_pos (show (0 : Int) ≤ (d : Int) - 1 by omega), htn]
        show (match cfg.choices[d - 1]? with
          | some item => if isSelectable item then d - 1 else st.active
          | none => st.active) = st.active
        cases hx : cfg.choices[d - 1]? with
        | none => rfl
        | some x => simp [hall x hx]
      · rw [if_neg (show ¬(0 : Int) ≤ (d : Int) - 1 by omega)]
        rfl
  · rw [hdisp, ha]
    rfl
  · rw [hdisp, ha]
    rfl

/-- Witness for C6: digit `3` jumps to C; digit `9` (out of range) is a
no-op on the initial state of `[A, B(disabled), C]`. -/
theorem digit_key_spec_witness :
    (dispatch id exCfg exBounds (initState exCfg exBounds) (.digit 3)).active = 3 - 1 ∧
    (dispatch id exCfg exBounds (initState exCfg exBounds) (.digit 9)).active =
      (initState exCfg exBounds).active := by
  constructor
  · exact (digit_key_spec id exCfg exBounds (initState exCfg exBounds) rfl 3).1
      itemC (by omega) rfl rfl
  · exact (digit_key_spec id exCfg exBounds (initState exCfg exBounds) rfl 9).2.1
      (Or.inr (Or.inl (by decide)))

/-- C2: for every configuration whose bounds computation succeeds (at
least one selectable item), the active index points at a selectable
choice — never a separator, never a disabled item — at initialization
and after any sequence of handled events (keys and timer firings). -/
theorem activeIndex_always_selectable {Value : Type} [DecidableEq Value]
    (str : Value → String) (cfg : SelectConfig Value) (b : Bounds)
    (hb : bounds cfg.choices = .ok b) (evs : List Event) :
    ActiveInv cfg.choices (runEvents str cfg b (initState cfg b) evs) :=
  runEvents_activeInv str (initState_activeInv hb) evs

/-- Witness for C2: a concrete run over `[A, B(disabled), C]` with a
navigation key, a search key and a digit key. -/
theorem activeIndex_always_selectable_witness :
    ActiveInv exCfg.choices
      (runEvents id exCfg exBounds (initState exCfg exBounds)
        [.key .down, .key (.other 'c'), .key (.digit 2), .key .up]) :=
  activeIndex_always_selectable id exCfg exBounds rfl
    [.key .down, .key (.other 'c'), .key (.digit 2), .key .up]

/-- C4: pressing Enter while pending appends exactly one emission — the
value of the choice at the active index — and sets the status to done;
a done prompt ignores every further key event (no state change, no
emission). -/
theorem enter_emits_once {Value : Type} (str : Value → String) (cfg : SelectConfig Value)
    (b : Bounds) (st : PromptState Value) (hst : st.status = .pending)
    (ch : Choice Value) (hact : cfg.choices[st.active]? = some (.choice ch)) :
    (dispatch str cfg b st .enter).status = .done ∧
    (dispatch str cfg b st .enter).emitted = st.emitted ++ [some ch.value] ∧
    (dispatch str cfg b st .enter).active = st.active ∧
    ∀ (st₀ : PromptState Value), st₀.status = .done →
      ∀ k : Key, dispatch str cfg b st₀ k = st₀ := by
  have hdisp : dispatch str cfg b st .enter =
      { clearTimeoutRef st with
        status := .done,
        emitted := st.emitted ++ [(cfg.choices[st.active]?).bind itemValue?] } := by
    unfold dispatch
    rw [if_neg (by simp [hst])]
    rfl
  refine ⟨by rw [hdisp], ?_, by rw [hdisp]; rfl, ?_⟩
  · rw [hdisp]
    show st.emitted ++ [(cfg.choices[st.active]?).bind itemValue?] = _
    rw [hact]
    rfl
  · intro st₀ h₀ k
    unfold dispatch
    rw [if_pos h₀]

/-- C3: on Up/Down while pending — if `loop` is set, or the move does
not cross the relevant bound (Up away from `first`, Down away from
`last`) — the active index advances by `−1`/`+1` cyclically modulo the
list length, skipping non-selectable items in the same direction until
a selectable one is found (`k` steps, every strictly earlier step
non-selectable); otherwise the active index is unchanged. -/
theorem arrow_key_spec {Value : Type} (str : Value → String) (cfg : SelectConfig Value)
    (b : Bounds) (hb : bounds cfg.choices = .ok b) (st : PromptState Value)
    (hst : st.status = .pending) (isUp : Bool) :
    ((cfg.loop || (isUp && st.active != b.first) || (!isUp && st.active != b.last)) = true →
      ∃ k, 1 ≤ k ∧ k ≤ cfg.choices.length ∧
        (dispatch str cfg b st (if isUp then Key.up else Key.down)).active =
          cyc cfg.choices.length st.active (if isUp then -1 else 1) k ∧
        (∃ x, cfg.choices[(dispatch str cfg b st (if isUp then Key.up else Key.down)).active]? =
          some x ∧ isSelectable x = true) ∧
        (∀ (t : Nat) (x : Item Value), 1 ≤ t → t < k →
          cfg.choices[cyc cfg.choices.length st.active (if isUp then -1 else 1) t]? = some x →
          isSelectable x = false)) ∧
    ((cfg.loop || (isUp && st.active != b.first) || (!isUp && st.active != b.last)) = false →
      (dispatch str cfg b st (if isUp then Key.up else Key.down)).active = st.active) := by
  have hdisp : dispatch str cfg b st (if isUp then Key.up else Key.down) =
      arrowMove cfg b (clearTimeoutRef st) isUp := by
    unfold dispatch
    rw [if_neg (by simp [hst])]
    cases isUp <;> rfl
  rw [hdisp]
  exact arrowMove_spec hb (clearTimeoutRef st) isUp

/-- Witness for C3: with `loop` on, Up from A over `[A, B(disabled), C]`
moves cyclically to a selectable item; with `loop` off, Up at
`Bounds.first` is a no-op. -/
theorem arrow_key_spec_witness :
    (∃ k, 1 ≤ k ∧ k ≤ exCfg.choices.length ∧
      (dispatch id exCfg exBounds (initState exCfg exBounds) Key.up).active =
        cyc exCfg.choices.length (initState exCfg exBounds).active (-1) k ∧
      (∃ x, exCfg.choices[(dispatch id exCfg exBounds (initState exCfg exBounds) Key.up).active]? =
        some x ∧ isSelectable x = true) ∧
      (∀ (t : Nat) (x : Item String), 1 ≤ t → t < k →
        exCfg.choices[cyc exCfg.choices.length (initState exCfg exBounds).active (-1) t]? =
          some x → isSelectable x = false)) ∧
    (dispatch id exCfgNoLoop exBounds (initState exCfgNoLoop exBounds) Key.up).active =
      (initState exCfgNoLoop exBounds).active := by
  constructor
  · exact (arrow_key_spec id exCfg exBounds rfl (initState exCfg exBounds) rfl true).1
      (by decide)
  · exact (arrow_key_spec id exCfgNoLoop exBounds rfl (initState exCfgNoLoop exBounds) rfl
      true).2 (by decide)

/-- C5: a printable key while pending matches the (lower-cased) buffer
against the items scanned from index 0, looking for the first
selectable item whose display label (name, falling back to the
stringified value) starts with the buffer; on a match the active index
becomes that index (and for a fixed buffer and item list the result is
the same regardless of either state's current active index), otherwise
the active index is unchanged. -/
theorem search_key_spec {Value : Type} (str : Value → String) (cfg : SelectConfig Value)
    (b : Bounds) (st st₂ : PromptState Value) (hst : st.status = .pending)
    (hst₂ : st₂.status = .pending) (hline : st₂.line = st.line) (c : Char) :
    ((∃ (i : Nat) (x : Item Value), cfg.choices[i]? = some x ∧ isSelectable x = true ∧
        strStartsWith (toLowerCase (displayLabel str x)) (toLowerCase (st.line.push c)) = true) →
      (∃ x, cfg.choices[(dispatch str cfg b st (.other c)).active]? = some x ∧
        isSelectable x = true ∧
        strStartsWith (toLowerCase (displayLabel str x)) (toLowerCase (st.line.push c)) = true) ∧
      (∀ (j : Nat) (x : Item Value), j < (dispatch str cfg b st (.other c)).active →
        cfg.choices[j]? = some x →
        ¬(isSelectable x = true ∧
          strStartsWith (toLowerCase (displayLabel str x)) (toLowerCase (st.line.push c)) = true)) ∧
      (dispatch str cfg b st₂ (.other c)).active = (dispatch str cfg b st (.other c)).active) ∧
    ((∀ (i : Nat) (x : Item Value), cfg.choices[i]? = some x →
        ¬(isSelectable x = true ∧
          strStartsWith (toLowerCase (displayLabel str x)) (toLowerCase (st.line.push c)) = true)) →
      (dispatch str cfg b st (.other c)).active = st.active) := by
  have hdisp : dispatch str cfg b st (.other c) = searchMove str cfg (clearTimeoutRef st) c := by
    unfold dispatch
    rw [if_neg (by simp [hst])]
    rfl
  have hdisp₂ : dispatch str cfg b st₂ (.other c) =
      searchMove str cfg (clearTimeoutRef st₂) c := by
    unfold dispatch
    rw [if_neg (by simp [hst₂])]
    rfl
  constructor
  · rintro ⟨i, x, hx, hselx, hstart⟩
    have hp : searchMatches str (toLowerCase (st.line.push c)) x = true :=
      (searchMatches_iff str (toLowerCase (st.line.push c)) x).mpr ⟨hselx, hstart⟩
    obtain ⟨m, hm⟩ := @findIndex?_isSome (Item Value)
      (searchMatches str (toLowerCase (st.line.push c))) cfg.choices i x hx hp
    have hact : (dispatch str cfg b st (.other c)).active = m := by
      rw [hdisp, searchMove_active]
      show (match findIndex? (searchMatches str (toLowerCase (st.line.push c))) cfg.choices with
        | some i => i
        | none => st.active) = m
      rw [hm]
    have hact₂ : (dispatch str cfg b st₂ (.other c)).active = m := by
      rw [hdisp₂, searchMove_active]
      show (match findIndex? (searchMatches str (toLowerCase (st₂.line.push c))) cfg.choices with
        | some i => i
        | none => st₂.active) = m
      rw [hline, hm]
    obtain ⟨y, hy, hpy⟩ := findIndex?_some_getElem hm
    obtain ⟨hsely, hstarty⟩ := (searchMatches_iff str (toLowerCase (st.line.push c)) y).mp hpy
    refine ⟨⟨y, by rw [hact]; exact hy, hsely, hstarty⟩, ?_, by rw [hact₂, hact]⟩
    rintro j z hj hz ⟨hselz, hstartz⟩
    rw [hact] at hj
    have := findIndex?_some_least hm j z hj hz
    rw [(searchMatches_iff str (toLowerCase (st.line.push c)) z).mpr ⟨hselz, hstartz⟩] at this
    cases this
  · intro hno
    have hnone : findIndex? (searchMatches str (toLowerCase (st.line.push c))) cfg.choices = none := by
      cases hfi : findIndex? (searchMatches str (toLowerCase (st.line.push c))) cfg.choices with
      | none => rfl
      | some i =>
        obtain ⟨x, hx, hpx⟩ := findIndex?_some_getElem hfi
        exact absurd ((searchMatches_iff str (toLowerCase (st.line.push c)) x).mp hpx) (hno i x hx)
    rw [hdisp, searchMove_active]
    show (match findIndex? (searchMatches str (toLowerCase (st.line.push c))) cfg.choices with
      | some i => i
      | none => st.active) = st.active
    rw [hnone]

/-- Witness for C5: typing `c` over `[Alpha, Bravo(disabled), Charlie]`
from two states with different active indices lands on Charlie (index
2, the first selectable label starting with "c") in both. -/
theorem search_key_spec_witness :
    (∃ x, exCfg.choices[(dispatch id exCfg exBounds (initState exCfg exBounds)
        (.other 'c')).active]? = some x ∧ isSelectable x = true ∧
      strStartsWith (toLowerCase (displayLabel id x))
        (toLowerCase ((initState exCfg exBounds).line.push 'c')) = true) ∧
    (∀ (j : Nat) (x : Item String),
      j < (dispatch id exCfg exBounds (initState exCfg exBounds) (.other 'c')).active →
      exCfg.choices[j]? = some x →
      ¬(isSelectable x = true ∧
        strStartsWith (toLowerCase (displayLabel id x))
          (toLowerCase ((initState exCfg exBounds).line.push 'c')) = true)) ∧
    (dispatch id exCfg exBounds
      { initState exCfg exBounds with active := 2 } (.other 'c')).active =
    (dispatch id exCfg exBounds (initState exCfg exBounds) (.other 'c')).active :=
  (search_key_spec id exCfg exBounds (initState exCfg exBounds)
    { initState exCfg exBounds with active := 2 } rfl rfl rfl 'c').1
    ⟨2, itemC, rfl, rfl, by decide⟩

/-- Witness for C4: Enter on the initial state of `[A, B(disabled), C]`
emits A's value once, and done states ignore all keys. -/
theorem enter_emits_once_witness :
    (dispatch id exCfg exBounds (initState exCfg exBounds) Key.enter).status = Status.done ∧
    (dispatch id exCfg exBounds (initState exCfg exBounds) Key.enter).emitted =
      (initState exCfg exBounds).emitted ++ [some "alpha"] ∧
    (dispatch id exCfg exBounds (initState exCfg exBounds) Key.enter).active =
      (initState exCfg exBounds).active ∧
    ∀ st₀ : PromptState String, st₀.status = .done → ∀ k : Key,
      dispatch id exCfg exBounds st₀ k = st₀ :=
  enter_emits_once id exCfg exBounds (initState exCfg exBounds) rfl
    { value := "alpha", name := some "Alpha" } rfl

/-- C8: in every reachable state at most one timer is pending, and a
pending one is the 700 ms expiry timer the ref points at; a key event
first cancels any pending timer, so a non-printable key leaves none
pending and a printable key leaves exactly the one fresh 700 ms timer
it schedules; a firing timer's sole effect is to clear the search
buffer (it never touches active, status or the emissions). -/
theorem timer_discipline_spec {Value : Type} [DecidableEq Value] (str : Value → String)
    (cfg : SelectConfig Value) (b : Bounds) (evs : List Event) :
    ((runEvents str cfg b (initState cfg b) evs).timers = [] ∨
      ∃ t : PendingTimer, (runEvents str cfg b (initState cfg b) evs).timers = [t] ∧
        t.delay = 700 ∧
        (runEvents str cfg b (initState cfg b) evs).searchTimeoutRef = some t) ∧
    (∀ k : Key, (∀ c : Char, k ≠ .other c) →
      (dispatch str cfg b (runEvents str cfg b (initState cfg b) evs) k).timers = []) ∧
    (∀ c : Char, (runEvents str cfg b (initState cfg b) evs).status = .pending →
      (dispatch str cfg b (runEvents str cfg b (initState cfg b) evs) (.other c)).timers =
        [{ id := (runEvents str cfg b (initState cfg b) evs).timerCounter, delay := 700 }]) ∧
    (∀ (st₀ : PromptState Value) (id : Nat),
      (fireSearchTimeout st₀ id).active = st₀.active ∧
      (fireSearchTimeout st₀ id).status = st₀.status ∧
      (fireSearchTimeout st₀ id).emitted = st₀.emitted ∧
      (st₀.timers.any (fun t => t.id == id) = true → (fireSearchTimeout st₀ id).line = "") ∧
      (st₀.timers.any (fun t => t.id == id) = false → fireSearchTimeout st₀ id = st₀)) := by
  have hinv := runEvents_timerInv str cfg b (initState_timerInv cfg b) evs
  refine ⟨hinv.1, ?_, ?_, fun st₀ id => fireSearchTimeout_fields st₀ id⟩
  · intro k hk
    unfold dispatch
    split
    · rename_i hdone
      exact hinv.2 hdone
    · have htm := handleKeypress_timers str cfg b k (clearTimeoutRef_timers_nil hinv.1)
      cases k with
      | other c => exact absurd rfl (hk c)
      | enter => exact htm
      | up => exact htm
      | down => exact htm
      | digit d => exact htm
      | backspace => exact htm
  · intro c hpend
    unfold dispatch
    rw [if_neg (by simp [hpend])]
    exact handleKeypress_timers str cfg b (.other c)
      (clearTimeoutRef_timers_nil hinv.1)

/-- Witness for C8: after one printable key on `[A, B(disabled), C]`,
exactly the fresh 700 ms timer is pending; a following Down key leaves
none pending. -/
theorem timer_discipline_spec_witness :
    ((runEvents id exCfg exBounds (initState exCfg exBounds) [.key (.other 'c')]).timers = [] ∨
      ∃ t : PendingTimer,
        (runEvents id exCfg exBounds (initState exCfg exBounds) [.key (.other 'c')]).timers =
          [t] ∧ t.delay = 700 ∧
        (runEvents id exCfg exBounds (initState exCfg exBounds)
          [.key (.other 'c')]).searchTimeoutRef = some t) ∧
    (dispatch id exCfg exBounds
      (runEvents id exCfg exBounds (initState exCfg exBounds) [.key (.other 'c')])
      Key.down).timers = [] := by
  have h := timer_discipline_spec id exCfg exBounds [.key (.other 'c')]
  exact ⟨h.1, h.2.1 Key.down (fun c hc => by cases hc)⟩

end Select
